import Mathlib

/-!
Verification of the country-aggregation core of the climate-resilience
pipeline (src/data_ingest/fetch_climate.py, src/utils/geo_utils.py,
src/publish_csv.py) against its natural-language specification.

The Python code is shallowly embedded: dataframes become lists of records,
float values become rationals, numpy grids become coordinate lists, and the
haversine distance is kept as an explicit function parameter `d` of the
fallback resolver (its transcendental formula is irrelevant to every claim
below, all of which are about the control flow around the computed
distances).  String lowering and lexicographic string order are embedded by
structural functions over character lists (`lowerStr`, `lexLt`) mirroring
the semantics of Python `str.lower` / string comparison, so that every
definition evaluates inside the kernel.
-/

namespace ClimatePipeline

/-- Embeds the row type of the per-year output: one AggregateRecord
`(country, year, avg_temp_c)` as produced by
`compute_country_annual_means_from_years` (fetch_climate.py lines 219, 247). -/
structure Rec where
  country : String
  year : Int
  value : ℚ
deriving DecidableEq

/-- Embeds the pandas deduplication key `subset=["country", "year"]`
(fetch_climate.py line 248). -/
def recKey (r : Rec) : String × Int := (r.country, r.year)

/-- Strict lexicographic order on character lists, comparing code points:
the order Python uses to compare strings.  Defined structurally so the
kernel can evaluate it (the library String order does not reduce). -/
def lexLt : List Char → List Char → Bool
  | [], [] => false
  | [], _ :: _ => true
  | _ :: _, [] => false
  | a :: as, b :: bs =>
    if a.toNat < b.toNat then true
    else if b.toNat < a.toNat then false
    else lexLt as bs

/-- Strict string order via `lexLt` on the underlying characters. -/
def strLtB (a b : String) : Bool := lexLt a.data b.data

/-- Non-strict string order, the comparator of an ascending Python sort. -/
def StrLe (a b : String) : Prop := strLtB b a = false

instance : DecidableRel StrLe := fun a b => inferInstanceAs (Decidable (_ = _))

/-- Non-strict order on `(country, year)` keys: the comparator of
`sort_values(["country", "year"])` (publish_csv.py line 97,
fetch_climate.py line 292). -/
def keyLeB (r s : Rec) : Bool :=
  strLtB r.country s.country || (r.country == s.country && decide (r.year ≤ s.year))

/-- Propositional form of `keyLeB`. -/
def keyLe (r s : Rec) : Prop := keyLeB r s = true

instance : DecidableRel keyLe := fun r s => inferInstanceAs (Decidable (_ = _))

/-- Embeds Python `str.lower()` (character-wise lowering; identical to the
source behaviour on the ASCII column names involved). -/
def lowerStr (s : String) : String := String.mk (s.data.map Char.toLower)

/-- Embeds the substring test `"time" in c` on character lists:
some suffix of `s` starts with `pat`. -/
def charsHas (pat : List Char) : List Char → Bool
  | [] => pat.isEmpty
  | c :: rest => pat.isPrefixOf (c :: rest) || charsHas pat rest

/-- Embeds `"time" in c.lower()` (fetch_climate.py line 77,
geo_utils.py line 105). -/
def containsTime (c : String) : Bool := charsHas "time".data (lowerStr c).data

/-- The recognized time-axis names (fetch_climate.py line 71,
geo_utils.py line 102). -/
def recognized_time_names : List String := ["time", "valid_time", "date", "datetime"]

/-- Embeds `TIME_NAME` (config.py line 15). -/
def TIME_NAME : String := "valid_time"

/-- Embeds `get_time_col` (fetch_climate.py lines 69-79): first recognized
name found among the lowered column names (returning the case-preserved
original), else the first column whose lowered name contains "time",
else `none`. -/
def get_time_col (columns : List String) : Option String :=
  match recognized_time_names.find? (fun c => (columns.map lowerStr).contains c) with
  | some c => columns.find? (fun col => lowerStr col == c)
  | none => columns.find? (fun col => containsTime col)

/-- Embeds line 213 of fetch_climate.py,
`tcol = get_time_col(df_weighted_batch.columns.tolist()) or TIME_NAME`:
the column name the batched aggregation selects as its time axis. -/
def compute_tcol (columns : List String) : String :=
  (get_time_col columns).getD TIME_NAME

/-- Embeds lines 213-214 of fetch_climate.py jointly: the selection
`tcol = get_time_col(...) or TIME_NAME` followed by the column access
`pd.to_datetime(df_weighted_batch[tcol])`, which raises a `KeyError` when
the selected name is not a column of the frame and otherwise proceeds
with that column as the time axis. -/
def batch_time_axis (columns : List String) : Except String String :=
  if columns.contains (compute_tcol columns) then Except.ok (compute_tcol columns)
  else Except.error ("KeyError: " ++ compute_tcol columns)

/-- Embeds the time-column selection of `nearest_cell_fallback`
(geo_utils.py lines 102-106): first column whose lowered name is
recognized, else the first column whose lowered name contains "time",
else the first column of the dataframe (`dfp.columns[0]`). -/
def fallback_time_col (columns : List String) : Option String :=
  match columns.find? (fun c => recognized_time_names.contains (lowerStr c)) with
  | some c => some c
  | none =>
    match columns.find? (fun c => containsTime c) with
    | some c => some c
    | none => columns.head?

/-- Embeds the column set of the dataframe each year partition is written
from (fetch_climate.py lines 219, 222, 247, 252-254 and geo_utils.py
line 123): exactly `country`, `year`, `avg_temp_c`. -/
def partition_columns : List String := ["country", "year", "avg_temp_c"]

/-- Embeds `REQUIRED_COLUMNS` (publish_csv.py line 16). -/
def REQUIRED_COLUMNS : List String := ["country", "year", "temp_c"]

/-- Embeds `missing = REQUIRED_COLUMNS - cols` (publish_csv.py line 54). -/
def schema_missing (cols : List String) : List String :=
  REQUIRED_COLUMNS.filter (fun c => !(cols.contains c))

/-- Embeds `unexpected = cols - REQUIRED_COLUMNS` (publish_csv.py line 55). -/
def schema_unexpected (cols : List String) : List String :=
  cols.filter (fun c => !(REQUIRED_COLUMNS.contains c))

/-- Embeds `validate_parquet_schema` (publish_csv.py lines 43-59): reads the
column names of the partition and raises `ValueError` when any required
column is missing or any unexpected column is present. -/
def validate_parquet_schema (parquet_path : String) (cols : List String) :
    Except String Unit :=
  if (schema_missing cols).isEmpty && (schema_unexpected cols).isEmpty then
    Except.ok ()
  else
    Except.error ("Schema mismatch in " ++ parquet_path ++ ": missing="
      ++ toString (List.insertionSort StrLe (schema_missing cols))
      ++ " unexpected=" ++ toString (List.insertionSort StrLe (schema_unexpected cols)))

/-- Embeds a pandas column mean, `groupby(...).mean()` over a group given as
the list of its values. -/
def mean (l : List ℚ) : ℚ := l.sum / l.length

/-- Embeds the per-year GridField (`ds_renamed`, fetch_climate.py lines
179-181): coordinate arrays `lat`/`lon`, the calendar year of each time
step (the `dt.year` of the time coordinate, line 214), and the variable in
degrees Celsius at (time index, lat, lon) (after the Kelvin shift of
line 180). -/
structure Grid where
  lats : List ℚ
  lons : List ℚ
  times : List Int
  value : Nat → ℚ → ℚ → ℚ

/-- Embeds one sanitized region: its name and the point-in-polygon test
used by the rasterizer (whether a grid-cell center lies in the polygon). -/
structure Region where
  name : String
  covers : ℚ → ℚ → Bool

/-- Embeds the raveled meshgrid of cell centers (geo_utils.py lines 41-46,
64-66): `LON, LAT = np.meshgrid(lons, lats)` then C-order ravel, so cells
are enumerated latitude-major, then longitude. -/
def grid_flat (g : Grid) : List (ℚ × ℚ) :=
  g.lats.flatMap (fun la => g.lons.map (fun lo => (la, lo)))

/-- Cells of the grid whose centers the region covers (the True entries of
the region channel of `mask_3D`, fetch_climate.py line 197). -/
def covered_cells (g : Grid) (r : Region) : List (ℚ × ℚ) :=
  (grid_flat g).filter (fun c => r.covers c.1 c.2)

/-- Whether the region overlaps at least one grid point; `mask_3D` drops
regions for which this fails (regionmask `drop=True` default), which is
what later routes them to the fallback resolver. -/
def region_covered (g : Grid) (r : Region) : Bool :=
  !(covered_cells g r).isEmpty

/-- Embeds the per-region, per-time-step area-weighted reduction
(fetch_climate.py lines 198-204): the masked variable weighted by
`w lat` (in the source `w = cos(deg2rad(lat))`, kept here as an explicit
parameter) and averaged over the unmasked cells,
`sum (w * v) / sum w`.  Depends only on the region and the grid, never on
the batch the region sits in. -/
def region_mean_at (w : ℚ → ℚ) (g : Grid) (r : Region) (t : Nat) : ℚ :=
  ((covered_cells g r).map (fun c => w c.1 * g.value t c.1 c.2)).sum /
    ((covered_cells g r).map (fun c => w c.1)).sum

/-- Time steps of the grid belonging to year `y`, with their indices
(the rows surviving the defensive filter of fetch_climate.py line 217). -/
def year_times (g : Grid) (y : Int) : List (Nat × Int) :=
  g.times.enum.filter (fun p => decide (p.2 = y))

/-- Embeds the tabularized rows of one region batch after the year filter
(fetch_climate.py lines 206-217): one row per surviving region and
year-`y` time step, carrying the region name and the weighted mean. -/
def raw_rows (y : Int) (w : ℚ → ℚ) (g : Grid) (slice : List Region) : List Rec :=
  (slice.filter (fun r => region_covered g r)).flatMap
    (fun r => (year_times g y).map (fun p => ⟨r.name, y, region_mean_at w g r p.1⟩))

/-- The sorted distinct group keys of a pandas groupby on the country
column (fetch_climate.py line 219; the year key is constant after the
line 217 filter). -/
def group_keys (rows : List Rec) : List String :=
  List.insertionSort StrLe (rows.map (fun r => r.country)).dedup

/-- Embeds `groupby(["country", "year"], as_index=False)["avg_temp_c"].mean()`
applied to one batch (fetch_climate.py line 219): one row per distinct
country, in sorted key order, averaging the values of that country. -/
def grouped_batch (y : Int) (w : ℚ → ℚ) (g : Grid) (slice : List Region) : List Rec :=
  (group_keys (raw_rows y w g slice)).map (fun k =>
    ⟨k, y, mean (((raw_rows y w g slice).filter (fun r => r.country == k)).map
      (fun r => r.value))⟩)

/-- Fuel-driven helper for `toBatches`; `fuel` is instantiated to the list
length, which always suffices since each step consumes at least one
element. -/
def toBatchesAux (bs : Nat) : Nat → List α → List (List α)
  | _, [] => []
  | 0, l => [l]
  | fuel + 1, x :: xs => (x :: xs).take bs :: toBatchesAux bs fuel (xs.drop (bs - 1))

/-- Embeds the slicing loop `for i in range(0, len(regions.names),
batch_size)` with slices `[i : i + batch_size]` (fetch_climate.py lines
186-191).  `bs = 0` cannot occur (Python `range` rejects step 0). -/
def toBatches (bs : Nat) (l : List α) : List (List α) :=
  toBatchesAux bs l.length l

/-- Embeds `batch_size = 20` (fetch_climate.py line 185). -/
def batch_size : Nat := 20

/-- Embeds the direct (GridMasker) result for one year: the concatenation
of the per-batch grouped results (`df_year`, fetch_climate.py lines
184-222). -/
def df_year_rows (bs : Nat) (y : Int) (w : ℚ → ℚ) (g : Grid)
    (regions : List Region) : List Rec :=
  ((toBatches bs regions).map (grouped_batch y w g)).flatten

/-- The batch-free normal form of the direct result: one row per covered
region, in region order (a proof device used to state batch invariance,
not itself an embedding of source code). -/
def region_agg (y : Int) (w : ℚ → ℚ) (g : Grid) (r : Region) : Rec :=
  ⟨r.name, y, mean ((year_times g y).map (fun p => region_mean_at w g r p.1))⟩

/-- Batch-free normal form of `df_year_rows` (proof device): empty when no
time step falls in year `y`, else one aggregate per covered region in
input order. -/
def norm_rows (y : Int) (w : ℚ → ℚ) (g : Grid) (l : List Region) : List Rec :=
  if (year_times g y).isEmpty then []
  else (l.filter (fun r => region_covered g r)).map (region_agg y w g)

/-- Embeds `np.argmin` via a running (index, value) pair: strict `<` keeps
the earliest minimum, so ties resolve to the first occurrence. -/
def argminPair : List ℚ → Nat → Nat × ℚ → Nat × ℚ
  | [], _, best => best
  | x :: xs, i, (bi, bv) =>
    if x < bv then argminPair xs (i + 1) (i, x) else argminPair xs (i + 1) (bi, bv)

/-- Embeds `idx = np.argmin(dists)` (geo_utils.py line 83): index of the
first occurrence of the minimum (0 on an empty array, which in the source
would raise). -/
def argmin_idx : List ℚ → Nat
  | [] => 0
  | x :: xs => (argminPair xs 1 (0, x)).1

/-- Embeds `dists = _haversine_km(clat, clon, flat_LAT, flat_LON)`
(geo_utils.py line 82): the distance from the anchor to every raveled cell
center, with the haversine formula kept as the explicit function
parameter `d`. -/
def fb_dists (d : ℚ → ℚ → ℚ → ℚ → ℚ) (g : Grid) (clat clon : ℚ) : List ℚ :=
  (grid_flat g).map (fun c => d clat clon c.1 c.2)

/-- Embeds `dmin = float(dists[idx])` (geo_utils.py line 84). -/
def fb_dmin (d : ℚ → ℚ → ℚ → ℚ → ℚ) (g : Grid) (clat clon : ℚ) : ℚ :=
  (fb_dists d g clat clon).getD (argmin_idx (fb_dists d g clat clon)) 0

/-- Embeds the audit status strings of `nearest_cell_fallback`
(geo_utils.py lines 74, 87, 115): `no_geometry`,
`no_cell_within_{cap}km`, `fallback_used`. -/
inductive FbStatus where
  | no_geometry : FbStatus
  | no_cell_within (cap : ℚ) : FbStatus
  | fallback_used : FbStatus
deriving DecidableEq

/-- Embeds one row of the fallback audit log (geo_utils.py lines 74, 87,
113-119 and the column set of fetch_climate.py line 267). -/
structure AuditEntry where
  country : String
  status : FbStatus
  min_km : Option ℚ
  near_lat : Option ℚ
  near_lon : Option ℚ
deriving DecidableEq

/-- The sorted distinct years of a `groupby("year")` (geo_utils.py
line 109). -/
def year_keys (times : List Int) : List Int :=
  List.insertionSort (· ≤ ·) times.dedup

/-- Embeds the annual aggregation of the nearest-cell time series
(geo_utils.py lines 97-110): the series at the chosen cell, grouped by
calendar year and averaged, one record per year for the given country. -/
def fb_annual_records (g : Grid) (name : String) (la lo : ℚ) : List Rec :=
  (year_keys g.times).map (fun yr =>
    ⟨name, yr, mean ((g.times.enum.filter (fun p => decide (p.2 = yr))).map
      (fun p => g.value p.1 la lo))⟩)

/-- Embeds one iteration of the `for name in missing_countries` loop of
`nearest_cell_fallback` (geo_utils.py lines 71-119).  `none` for the
anchor models a null or empty unary union (status `no_geometry`);
otherwise the minimum haversine distance over all cells decides between
`no_cell_within_{cap}km` (d_min strictly above the cap: skip, no record)
and `fallback_used` (extract the series at the nearest cell, found at
`ilat = idx / nlon`, `ilon = idx % nlon`). -/
def fallback_country (d : ℚ → ℚ → ℚ → ℚ → ℚ) (g : Grid) (cap : ℚ)
    (name : String) : Option (ℚ × ℚ) → List Rec × AuditEntry
  | none => ([], ⟨name, FbStatus.no_geometry, none, none, none⟩)
  | some (clat, clon) =>
    if cap < fb_dmin d g clat clon then
      ([], ⟨name, FbStatus.no_cell_within cap, some (fb_dmin d g clat clon),
        none, none⟩)
    else
      ((fb_annual_records g name
          (g.lats.getD (argmin_idx (fb_dists d g clat clon) / g.lons.length) 0)
          (g.lons.getD (argmin_idx (fb_dists d g clat clon) % g.lons.length) 0)),
        ⟨name, FbStatus.fallback_used, some (fb_dmin d g clat clon),
          some (g.lats.getD (argmin_idx (fb_dists d g clat clon) / g.lons.length) 0),
          some (g.lons.getD (argmin_idx (fb_dists d g clat clon) % g.lons.length) 0)⟩)

/-- Embeds `nearest_cell_fallback` (geo_utils.py lines 48-123): the
concatenated fallback records and one audit entry per attempted country,
with the geometry lookup and anchor-point computation (lines 72-79)
abstracted as `anchorOf`. -/
def nearest_cell_fallback (d : ℚ → ℚ → ℚ → ℚ → ℚ) (g : Grid)
    (anchorOf : String → Option (ℚ × ℚ)) (missing : List String) (cap : ℚ) :
    List Rec × List AuditEntry :=
  ((missing.map (fun n => (fallback_country d g cap n (anchorOf n)).1)).flatten,
    missing.map (fun n => (fallback_country d g cap n (anchorOf n)).2))

/-- Embeds `missing_countries = sorted(list(set(regions.names) -
set(df_year.country.unique())))` (fetch_climate.py lines 225-227). -/
def missing_countries (regions : List Region) (df : List Rec) : List String :=
  List.insertionSort StrLe
    ((regions.map (fun r => r.name)).dedup.filter
      (fun n => !((df.map (fun r => r.country)).contains n)))

/-- Helper for `drop_duplicates_keep_first`: keep each record whose
(country, year) key has not been seen yet, accumulating seen keys
(structural recursion, so the definition evaluates in the kernel). -/
def ddkfAux (seen : List (String × Int)) : List Rec → List Rec
  | [] => []
  | r :: rs =>
    if seen.any (fun t => decide (t = recKey r)) then ddkfAux seen rs
    else r :: ddkfAux (recKey r :: seen) rs

/-- Embeds `drop_duplicates(subset=["country", "year"], keep="first")`
(fetch_climate.py line 248): keeps the first record of each key, in
order. -/
def drop_duplicates_keep_first (l : List Rec) : List Rec := ddkfAux [] l

/-- Embeds the merge of direct and fallback records for one year
(fetch_climate.py lines 247-248): concatenate with the direct rows first,
then deduplicate on (country, year) keeping the first. -/
def final_year_records (df_year fb_df : List Rec) : List Rec :=
  drop_duplicates_keep_first (df_year ++ fb_df)

/-- Embeds the full per-year record assembly (fetch_climate.py lines
184-248): batched direct results, the missing-country set, the fallback
(skipped when nothing is missing, lines 230-244), and the merge.  These
are exactly the rows handed to `to_parquet` (line 259). -/
def year_partition_rows (bs : Nat) (y : Int) (w : ℚ → ℚ) (g : Grid)
    (regions : List Region) (d : ℚ → ℚ → ℚ → ℚ → ℚ)
    (anchorOf : String → Option (ℚ × ℚ)) (cap : ℚ) : List Rec :=
  final_year_records (df_year_rows bs y w g regions)
    (if (missing_countries regions (df_year_rows bs y w g regions)).isEmpty then []
     else (nearest_cell_fallback d g anchorOf
        (missing_countries regions (df_year_rows bs y w g regions)) cap).1)

/-- Embeds the preview CSV rows (fetch_climate.py lines 285, 292):
concatenated per-year frames, sorted by (country, year), deduplicated
keeping the first.  The sort is modeled as a stable sort; only its
sortedness is relied on (pandas sort_values uses an unstable quicksort by
default). -/
def preview_rows (frames : List (List Rec)) : List Rec :=
  drop_duplicates_keep_first (List.insertionSort keyLe frames.flatten)

/-- Abstracts one row of the raw boundary table for `sanitize_countries`
(geo_utils.py lines 125-210): the only geometry facts the control flow
inspects are nullness/emptiness at entry, emptiness after the
buffer(0)/make_valid repair (line 194), and null-or-emptiness after the
final reprojection (lines 205-206). -/
structure GeoRow where
  isNull : Bool
  isEmpty0 : Bool
  emptyAfterRepair : Bool
  emptyAfterOut : Bool
deriving DecidableEq

/-- Embeds the auto-detection priority list of country-name columns
(geo_utils.py line 165). -/
def candidate_name_cols : List String := ["ADMIN", "NAME", "name", "COUNTRY", "country"]

/-- Embeds the name-column resolution of `sanitize_countries`
(geo_utils.py lines 163-176): validate the override if given, else search
the priority list, else fail naming the available columns. -/
def resolve_country_col (columns : List String) : Option String → Except String String
  | some c =>
    if columns.contains c then Except.ok c
    else Except.error ("Country column " ++ c ++ " not found. Available columns: "
      ++ String.intercalate ", " columns)
  | none =>
    match candidate_name_cols.find? (fun c => columns.contains c) with
    | some c => Except.ok c
    | none => Except.error ("No usable country name column found. Available columns: "
      ++ String.intercalate ", " columns)

/-- Embeds the initial null/empty drop (geo_utils.py lines 156-157). -/
def initial_keep (rows : List GeoRow) : List GeoRow :=
  (rows.filter (fun r => !r.isNull)).filter (fun r => !r.isEmpty0)

/-- Embeds the post-repair drop (geo_utils.py line 194). -/
def repair_keep (rows : List GeoRow) : List GeoRow :=
  rows.filter (fun r => !r.emptyAfterRepair)

/-- Embeds the final null/empty drop after reprojection (geo_utils.py
lines 205-206). -/
def out_keep (rows : List GeoRow) : List GeoRow :=
  rows.filter (fun r => !r.emptyAfterOut)

/-- Embeds `sanitize_countries` (geo_utils.py lines 125-210): initial
null/empty drop with an explicit emptiness check (lines 159-160), name
column resolution, then the repair drop and the final post-reprojection
drop, neither of which is followed by an emptiness check.  The metric
reprojection and positive buffering (lines 182-202) alter no emptiness
flag: buffering a nonempty geometry by a nonnegative distance never
empties it, so `buffer_meters` is carried only for signature fidelity. -/
def sanitize_countries (columns : List String) (rows : List GeoRow)
    (country_col : Option String) (_buffer_meters : ℚ) :
    Except String (List GeoRow × String) :=
  if (initial_keep rows).isEmpty then
    Except.error "No valid geometries found after removing null/empty geometries"
  else
    match resolve_country_col columns country_col with
    | Except.error e => Except.error e
    | Except.ok col => Except.ok (out_keep (repair_keep (initial_keep rows)), col)

/-- A file as a concurrent reader could observe it: mid-serialization
(`incomplete`) or fully written with its records. -/
inductive PartFile where
  | incomplete : PartFile
  | complete (recs : List Rec) : PartFile
deriving DecidableEq

/-- The observable file system: the `.tmp` files and the published
year-keyed partition paths, as association lists keyed by year. -/
structure FS where
  tmp : List (Int × PartFile)
  final : List (Int × PartFile)
deriving DecidableEq

/-- Create or overwrite a file at the given year key. -/
def setFile (files : List (Int × PartFile)) (y : Int) (c : PartFile) :
    List (Int × PartFile) :=
  (y, c) :: files.filter (fun p => !(decide (p.1 = y)))

/-- Remove the file at the given year key. -/
def delFile (files : List (Int × PartFile)) (y : Int) : List (Int × PartFile) :=
  files.filter (fun p => !(decide (p.1 = y)))

/-- Every state the file system passes through while the year loop runs
(fetch_climate.py lines 177, 250-261): for each year with a nonempty
merged record set, `to_parquet` to the `.tmp` path (lines 258-259, an
interruptible write: first incomplete, then complete) followed by
`atomic_replace` = `os.replace` (lines 52-54, 260), a single atomic
transition that removes the tmp file and installs the complete partition.
Years with an empty record set write nothing (line 251 guard).  Every
initial segment of the returned trace is a possible interruption point. -/
def run_states (s : FS) : List (Int × List Rec) → List FS
  | [] => [s]
  | (y, recs) :: rest =>
    if recs.isEmpty then s :: run_states s rest
    else
      s :: ⟨setFile s.tmp y PartFile.incomplete, s.final⟩
        :: ⟨setFile (setFile s.tmp y PartFile.incomplete) y (PartFile.complete recs), s.final⟩
        :: run_states
          ⟨delFile (setFile (setFile s.tmp y PartFile.incomplete) y (PartFile.complete recs)) y,
            setFile s.final y (PartFile.complete recs)⟩ rest

/-- Whether the file holds a fully written partition. -/
def isComplete : PartFile → Bool
  | PartFile.incomplete => false
  | PartFile.complete _ => true

/-- Every published partition path holds a fully written file. -/
def finalsOk (s : FS) : Prop := ∀ p ∈ s.final, isComplete p.2 = true

/-- Embeds the loop bookkeeping of fetch_climate.py lines 175, 250-261:
the years whose partitions were written, in order, and `n_partitions`;
a year whose merged record set is empty is skipped entirely. -/
def year_loop (acc : List Int × Nat) : List (Int × List Rec) → List Int × Nat
  | [] => acc
  | (y, recs) :: rest =>
    if recs.isEmpty then year_loop acc rest
    else year_loop (acc.1 ++ [y], acc.2 + 1) rest

/-- The file system after the year loop completes: the last state of
`run_states`, computed directly (fetch_climate.py lines 177, 250-261). -/
def final_state (s : FS) : List (Int × List Rec) → FS
  | [] => s
  | (y, recs) :: rest =>
    if recs.isEmpty then final_state s rest
    else final_state
      ⟨delFile (setFile (setFile s.tmp y PartFile.incomplete) y (PartFile.complete recs)) y,
        setFile s.final y (PartFile.complete recs)⟩ rest

/-- Embeds `FALLBACK_MAX_KM = 25.0` (config.py line 56). -/
def FALLBACK_MAX_KM : ℚ := 25

end ClimatePipeline

namespace ClimatePipeline

/-- C1: the downstream publisher does not accept the partitions the core
writes: the writer produces columns `country, year, avg_temp_c`
(fetch_climate.py lines 219, 247, 252-254) while `validate_parquet_schema`
demands `country, year, temp_c` (publish_csv.py line 16), so schema
validation fails on every core-written partition with `temp_c` missing and
`avg_temp_c` unexpected. -/
theorem publisher_rejects_every_core_partition :
    schema_missing partition_columns = ["temp_c"] ∧
    schema_unexpected partition_columns = ["avg_temp_c"] ∧
    ∃ e, validate_parquet_schema "year=2000/part.parquet" partition_columns
      = Except.error e := by
  refine ⟨by decide, by decide, ⟨_, rfl⟩⟩


/-- C2: counterexample.  With columns `mytime, obs` the time axis cannot
be identified from the recognized names (neither lowered name is in the
recognized set), yet no error is raised: the batched aggregation silently
adopts the arbitrary unrecognized column `mytime` (it merely contains the
substring "time") and proceeds with it.  With columns `station, obs`,
where nothing is time-like at all, the nearest-cell fallback silently
uses the first column `station` as the time axis. -/
theorem time_axis_silently_defaults :
    lowerStr "mytime" ∉ recognized_time_names ∧
    lowerStr "obs" ∉ recognized_time_names ∧
    get_time_col ["mytime", "obs"] = some "mytime" ∧
    batch_time_axis ["mytime", "obs"] = Except.ok "mytime" ∧
    get_time_col ["station", "obs"] = none ∧
    fallback_time_col ["station", "obs"] = some "station" :=
  ⟨by decide, by decide, by decide, rfl, by decide, by decide⟩

/-- C2 (amended): when no column name matches a recognized time name, both
paths first fall back, silently and with no error, to the first column
whose lowered name contains "time" (an arbitrary unrecognized column).
Only when no column contains "time" either do they diverge: the batched
aggregation substitutes the configured `TIME_NAME` (fetch_climate.py
line 213), which on this path is never a column of the frame (its lowered
name is recognized), so the immediately following column access of
line 214 fails with an accidental `KeyError` rather than an explicit
recognized-names error; the nearest-cell fallback instead silently uses
the first column of its dataframe (geo_utils.py line 106), with no error
at all. -/
theorem time_axis_defaults_characterized (cols : List String)
    (hrec : ∀ c ∈ cols, lowerStr c ∉ recognized_time_names) :
    get_time_col cols = cols.find? (fun c => containsTime c) ∧
    (cols.find? (fun c => containsTime c) = none →
      compute_tcol cols = TIME_NAME ∧
      cols.contains TIME_NAME = false ∧
      batch_time_axis cols = Except.error ("KeyError: " ++ TIME_NAME) ∧
      fallback_time_col cols = cols.head?) := by
  have h1 : recognized_time_names.find? (fun c => (cols.map lowerStr).contains c) = none := by
    rw [List.find?_eq_none]
    intro x _ hc
    rcases List.mem_map.mp (List.elem_iff.mp hc) with ⟨c, hcmem, hlow⟩
    exact hrec c hcmem (hlow ▸ ‹x ∈ recognized_time_names›)
  have hget : get_time_col cols = cols.find? (fun c => containsTime c) := by
    rw [get_time_col, h1]
  refine ⟨hget, ?_⟩
  intro hft
  have hcomp : compute_tcol cols = TIME_NAME := by
    rw [compute_tcol, hget, hft]
    rfl
  have hTNmem : TIME_NAME ∉ cols := fun hmem => hrec TIME_NAME hmem (by decide)
  have hTN : cols.contains TIME_NAME = false := by
    cases hb : cols.contains TIME_NAME
    · rfl
    · exact absurd (List.elem_iff.mp hb) hTNmem
  have hbta : batch_time_axis cols = Except.error ("KeyError: " ++ TIME_NAME) := by
    rw [batch_time_axis, hcomp, hTN]
    simp
  have hfb : fallback_time_col cols = cols.head? := by
    have h3 : cols.find? (fun c => recognized_time_names.contains (lowerStr c)) = none := by
      rw [List.find?_eq_none]
      intro c hmem hc
      exact hrec c hmem (List.elem_iff.mp hc)
    rw [fallback_time_col, h3, hft]
  exact ⟨hcomp, hTN, hbta, hfb⟩

/-- C2 witness: the amended characterization applied to the concrete
column list `station, obs`, where no column is recognized and none
contains "time". -/
theorem time_axis_defaults_characterized_witness :
    get_time_col ["station", "obs"]
        = (["station", "obs"] : List String).find? (fun c => containsTime c) ∧
    ((["station", "obs"] : List String).find? (fun c => containsTime c) = none →
      compute_tcol ["station", "obs"] = TIME_NAME ∧
      (["station", "obs"] : List String).contains TIME_NAME = false ∧
      batch_time_axis ["station", "obs"] = Except.error ("KeyError: " ++ TIME_NAME) ∧
      fallback_time_col ["station", "obs"] = (["station", "obs"] : List String).head?) :=
  time_axis_defaults_characterized ["station", "obs"] (by decide)

/-- The fuel argument of `toBatchesAux` is irrelevant once it dominates the
list length. -/
theorem toBatchesAux_fuel {α : Type _} (bs : Nat) :
    ∀ f1 f2 : Nat, ∀ l : List α, l.length ≤ f1 → l.length ≤ f2 →
      toBatchesAux bs f1 l = toBatchesAux bs f2 l := by
  intro f1
  induction f1 with
  | zero =>
    intro f2 l h1 _
    have hl : l = [] := List.eq_nil_of_length_eq_zero (Nat.le_zero.mp h1)
    subst hl
    cases f2 <;> rfl
  | succ f ih =>
    intro f2 l h1 h2
    cases l with
    | nil => cases f2 <;> rfl
    | cons x xs =>
      cases f2 with
      | zero => simp at h2
      | succ f2h =>
        have hxs1 : xs.length ≤ f := Nat.le_of_succ_le_succ (by simpa using h1)
        have hxs2 : xs.length ≤ f2h := Nat.le_of_succ_le_succ (by simpa using h2)
        have hd : (xs.drop (bs - 1)).length ≤ xs.length := by
          simpa using Nat.sub_le xs.length (bs - 1)
        show (x :: xs).take bs :: toBatchesAux bs f (xs.drop (bs - 1))
            = (x :: xs).take bs :: toBatchesAux bs f2h (xs.drop (bs - 1))
        exact congrArg _ (ih f2h _ (le_trans hd hxs1) (le_trans hd hxs2))

/-- Unfolding equation for `toBatches` on a nonempty list. -/
theorem toBatches_cons {α : Type _} (bs : Nat) (x : α) (xs : List α) :
    toBatches bs (x :: xs)
      = (x :: xs).take bs :: toBatches bs (xs.drop (bs - 1)) := by
  show toBatchesAux bs (x :: xs).length (x :: xs) = _
  have : toBatchesAux bs (xs.length + 1) (x :: xs)
      = (x :: xs).take bs :: toBatchesAux bs xs.length (xs.drop (bs - 1)) := rfl
  rw [List.length_cons, this, toBatches]
  exact congrArg _ (toBatchesAux_fuel bs _ _ _
    (by simpa using Nat.sub_le xs.length (bs - 1)) (le_refl _))

/-- Auxiliary: concatenating the batches gives back the region list. -/
theorem flatten_toBatches_aux {α : Type _} (bs : Nat) (hbs : 1 ≤ bs) :
    ∀ n : Nat, ∀ l : List α, l.length ≤ n → (toBatches bs l).flatten = l := by
  intro n
  induction n with
  | zero =>
    intro l h
    have hl : l = [] := List.eq_nil_of_length_eq_zero (Nat.le_zero.mp h)
    subst hl; rfl
  | succ n ih =>
    intro l h
    cases l with
    | nil => rfl
    | cons x xs =>
      rw [toBatches_cons, List.flatten_cons]
      have hxs : xs.length ≤ n := Nat.le_of_succ_le_succ (by simpa using h)
      have hd : (xs.drop (bs - 1)).length ≤ n :=
        le_trans (by simpa using Nat.sub_le xs.length (bs - 1)) hxs
      rw [ih _ hd]
      obtain ⟨b, rfl⟩ : ∃ b, bs = b + 1 := ⟨bs - 1, (Nat.succ_pred_eq_of_pos hbs).symm⟩
      simp [List.take_append_drop]

/-- Concatenating the batches of `toBatches` gives back the input list:
the slicing loop of fetch_climate.py lines 186-191 visits every region
exactly once. -/
theorem flatten_toBatches {α : Type _} (bs : Nat) (hbs : 1 ≤ bs) (l : List α) :
    (toBatches bs l).flatten = l :=
  flatten_toBatches_aux bs hbs l.length l (le_refl _)

/-- Every batch is a sublist of the input list. -/
theorem mem_toBatches_sublist {α : Type _} (bs : Nat) :
    ∀ n : Nat, ∀ l : List α, l.length ≤ n → ∀ b ∈ toBatches bs l, b.Sublist l := by
  intro n
  induction n with
  | zero =>
    intro l h b hb
    have hl : l = [] := List.eq_nil_of_length_eq_zero (Nat.le_zero.mp h)
    subst hl; cases hb
  | succ n ih =>
    intro l h b hb
    cases l with
    | nil => cases hb
    | cons x xs =>
      rw [toBatches_cons] at hb
      have hxs : xs.length ≤ n := Nat.le_of_succ_le_succ (by simpa using h)
      have hd : (xs.drop (bs - 1)).length ≤ n :=
        le_trans (by simpa using Nat.sub_le xs.length (bs - 1)) hxs
      rcases List.mem_cons.mp hb with hb1 | hb1
      · exact hb1 ▸ List.take_sublist _ _
      · exact (ih _ hd b hb1).trans ((List.drop_sublist _ _).trans (List.sublist_cons_self x xs))

/-- The distinct country names appearing in the rows of one batch are
exactly the names of its covered regions (as a permutation), provided the
batch has at least one time step in the target year and no repeated
name. -/
theorem group_keys_perm (y : Int) (w : ℚ → ℚ) (g : Grid) (slice : List Region)
    (hnd : ((slice.filter (fun r => region_covered g r)).map (fun r => r.name)).Nodup)
    (hts : year_times g y ≠ []) :
    (group_keys (raw_rows y w g slice)).Perm
      ((slice.filter (fun r => region_covered g r)).map (fun r => r.name)) := by
  refine (List.perm_insertionSort _ _).trans ?_
  apply List.perm_of_nodup_nodup_toFinset_eq (List.nodup_dedup _) hnd
  ext a
  simp only [List.mem_toFinset, List.mem_dedup, List.mem_map, List.mem_flatMap, raw_rows]
  constructor
  · rintro ⟨rec, ⟨r, hrcov, p, _, rfl⟩, rfl⟩
    exact ⟨r, hrcov, rfl⟩
  · rintro ⟨r, hrcov, rfl⟩
    rcases List.exists_mem_of_ne_nil _ hts with ⟨p, hp⟩
    exact ⟨⟨r.name, y, region_mean_at w g r p.1⟩, ⟨r, hrcov, p, hp, rfl⟩, rfl⟩

/-- Filtering the rows of a batch by one covered region name yields exactly
the rows of that region, provided names are not repeated. -/
theorem raw_rows_filter_name (y : Int) (w : ℚ → ℚ) (g : Grid) :
    ∀ L : List Region, (L.map (fun r => r.name)).Nodup → ∀ r0 ∈ L,
      ((L.flatMap (fun r => (year_times g y).map
          (fun p => (⟨r.name, y, region_mean_at w g r p.1⟩ : Rec)))).filter
        (fun rec => rec.country == r0.name))
      = (year_times g y).map (fun p => (⟨r0.name, y, region_mean_at w g r0 p.1⟩ : Rec)) := by
  intro L
  induction L with
  | nil => intro _ r0 h; cases h
  | cons c rest ih =>
    intro hnd r0 hr0
    have hcnot : c.name ∉ rest.map (fun r => r.name) := (List.nodup_cons.mp hnd).1
    have hndr : (rest.map (fun r => r.name)).Nodup := (List.nodup_cons.mp hnd).2
    rw [List.flatMap_cons, List.filter_append]
    rcases List.mem_cons.mp hr0 with rfl | hr0r
    · have h1 : ((year_times g y).map
          (fun p => (⟨r0.name, y, region_mean_at w g r0 p.1⟩ : Rec))).filter
            (fun rec => rec.country == r0.name)
          = (year_times g y).map (fun p => (⟨r0.name, y, region_mean_at w g r0 p.1⟩ : Rec)) := by
        rw [List.filter_eq_self]
        intro a ha
        rcases List.mem_map.mp ha with ⟨p, _, rfl⟩
        exact beq_self_eq_true r0.name
      have h2 : (rest.flatMap (fun r => (year_times g y).map
          (fun p => (⟨r.name, y, region_mean_at w g r p.1⟩ : Rec)))).filter
            (fun rec => rec.country == r0.name) = [] := by
        rw [List.filter_eq_nil_iff]
        intro a ha
        rcases List.mem_flatMap.mp ha with ⟨r, hr, har⟩
        rcases List.mem_map.mp har with ⟨p, _, rfl⟩
        simp only []
        intro hbeq
        exact hcnot (beq_iff_eq.mp hbeq ▸ List.mem_map.mpr ⟨r, hr, rfl⟩)
      rw [h1, h2, List.append_nil]
    · have hne : c.name ≠ r0.name := by
        intro he
        exact hcnot (he ▸ List.mem_map.mpr ⟨r0, hr0r, rfl⟩)
      have h1 : ((year_times g y).map
          (fun p => (⟨c.name, y, region_mean_at w g c p.1⟩ : Rec))).filter
            (fun rec => rec.country == r0.name) = [] := by
        rw [List.filter_eq_nil_iff]
        intro a ha
        rcases List.mem_map.mp ha with ⟨p, _, rfl⟩
        simp only []
        intro hbeq
        exact hne (beq_iff_eq.mp hbeq)
      rw [h1, ih hndr r0 hr0r, List.nil_append]

/-- One batch of the pandas groupby, up to permutation, is the per-region
aggregation of its covered regions (fetch_climate.py lines 197-219):
grouping merges rows per country name, and with distinct names each group
is exactly the row set of one region. -/
theorem grouped_batch_perm_norm (y : Int) (w : ℚ → ℚ) (g : Grid) (slice : List Region)
    (hnd : ((slice.filter (fun r => region_covered g r)).map (fun r => r.name)).Nodup) :
    (grouped_batch y w g slice).Perm (norm_rows y w g slice) := by
  by_cases hts : (year_times g y).isEmpty
  · have hts0 : year_times g y = [] := List.isEmpty_iff.mp hts
    have hraw : raw_rows y w g slice = [] := by
      simp [raw_rows, hts0]
    rw [norm_rows, if_pos hts, grouped_batch, hraw]
    simp [group_keys]
  · have htsne : year_times g y ≠ [] := by
      intro h0
      rw [h0] at hts
      exact hts rfl
    rw [norm_rows, if_neg hts, grouped_batch]
    refine ((group_keys_perm y w g slice hnd htsne).map _).trans ?_
    rw [List.map_map]
    have hpt : ∀ r0 ∈ slice.filter (fun r => region_covered g r),
        ((fun k => (⟨k, y, mean (((raw_rows y w g slice).filter
            (fun r => r.country == k)).map (fun r => r.value))⟩ : Rec)) ∘ (fun r => r.name)) r0
          = region_agg y w g r0 := by
      intro r0 hr0
      have hf := raw_rows_filter_name y w g (slice.filter (fun r => region_covered g r)) hnd r0 hr0
      show (⟨r0.name, y, mean (((raw_rows y w g slice).filter
        (fun r => r.country == r0.name)).map (fun r => r.value))⟩ : Rec) = region_agg y w g r0
      simp only [raw_rows]
      rw [hf, List.map_map]
      rfl
    rw [List.map_congr_left hpt]

/-- The batch-free normal form distributes over concatenation of region
lists. -/
theorem norm_rows_append (y : Int) (w : ℚ → ℚ) (g : Grid) (l1 l2 : List Region) :
    norm_rows y w g (l1 ++ l2) = norm_rows y w g l1 ++ norm_rows y w g l2 := by
  rw [norm_rows, norm_rows, norm_rows, List.filter_append, List.map_append]
  by_cases h : (year_times g y).isEmpty <;> simp [h]

/-- Flattening respects itemwise permutation of the mapped batches. -/
theorem flatten_map_perm {α β : Type _} (f h : α → List β) :
    ∀ L : List α, (∀ b ∈ L, (f b).Perm (h b)) →
      ((L.map f).flatten).Perm ((L.map h).flatten) := by
  intro L
  induction L with
  | nil => intro _; rfl
  | cons x xs ih =>
    intro hall
    rw [List.map_cons, List.map_cons, List.flatten_cons, List.flatten_cons]
    exact (hall x (List.mem_cons_self x xs)).append
      (ih (fun b hb => hall b (List.mem_cons_of_mem x hb)))

/-- The batch-free normal form of a flattened batch list. -/
theorem norm_rows_flatten (y : Int) (w : ℚ → ℚ) (g : Grid) :
    ∀ L : List (List Region),
      ((L.map (norm_rows y w g)).flatten) = norm_rows y w g L.flatten := by
  intro L
  induction L with
  | nil => simp [norm_rows]
  | cons x xs ih =>
    rw [List.map_cons, List.flatten_cons, List.flatten_cons, norm_rows_append, ih]

/-- The batched direct result is, up to permutation, the per-region
aggregation of the covered regions, independent of the batch size. -/
theorem df_year_rows_perm_norm (bs : Nat) (y : Int) (w : ℚ → ℚ) (g : Grid)
    (regions : List Region) (hbs : 1 ≤ bs)
    (hnd : (regions.map (fun r => r.name)).Nodup) :
    (df_year_rows bs y w g regions).Perm (norm_rows y w g regions) := by
  rw [df_year_rows]
  have hsub : ∀ b ∈ toBatches bs regions, List.Sublist b regions :=
    mem_toBatches_sublist bs regions.length regions (le_refl _)
  have h1 : ∀ b ∈ toBatches bs regions,
      (grouped_batch y w g b).Perm (norm_rows y w g b) := by
    intro b hb
    apply grouped_batch_perm_norm
    have hbnd : (b.map (fun r => r.name)).Nodup :=
      hnd.sublist ((hsub b hb).map (fun r => r.name))
    exact hbnd.sublist ((List.filter_sublist b).map (fun r => r.name))
  refine (flatten_map_perm _ _ _ h1).trans ?_
  rw [norm_rows_flatten, flatten_toBatches bs hbs]

/-- C7 (amended): provided no two regions share a name, the merged
(country, year, value) rows of the batched masking-and-reduction are the
same multiset for every batch size; row order may differ between batch
sizes, and with repeated region names even the row multiset can differ
(same-named regions falling in one batch are averaged into a single row
by the per-batch groupby, while split across batches they stay separate
rows). -/
theorem batch_size_invariance (bs1 bs2 : Nat) (y : Int) (w : ℚ → ℚ) (g : Grid)
    (regions : List Region) (h1 : 1 ≤ bs1) (h2 : 1 ≤ bs2)
    (hnd : (regions.map (fun r => r.name)).Nodup) :
    (df_year_rows bs1 y w g regions).Perm (df_year_rows bs2 y w g regions) :=
  (df_year_rows_perm_norm bs1 y w g regions h1 hnd).trans
    (df_year_rows_perm_norm bs2 y w g regions h2 hnd).symm

/-- C7 witness: batch invariance applied to a concrete grid with two
distinct-named regions, comparing batch size 1 with the configured batch
size 20. -/
theorem batch_size_invariance_witness :
    (df_year_rows 1 2000 (fun _ => 1)
      ⟨[0], [0, 1], [2000], fun _ _ lo => lo⟩
      [⟨"A", fun _ lo => lo == 0⟩, ⟨"B", fun _ lo => lo == 1⟩]).Perm
    (df_year_rows batch_size 2000 (fun _ => 1)
      ⟨[0], [0, 1], [2000], fun _ _ lo => lo⟩
      [⟨"A", fun _ lo => lo == 0⟩, ⟨"B", fun _ lo => lo == 1⟩]) :=
  batch_size_invariance 1 batch_size 2000 (fun _ => 1)
    ⟨[0], [0, 1], [2000], fun _ _ lo => lo⟩
    [⟨"A", fun _ lo => lo == 0⟩, ⟨"B", fun _ lo => lo == 1⟩]
    (by decide) (by decide) (by decide)

/-- C7: counterexample.  With two regions both named `A` (the RegionSet
contract keeps repeated names), batch size 1 yields two rows for
(`A`, 2000) while batch size 2 yields one (their within-batch groupby
average), so the result of the batched masking-and-reduction is not
independent of the batch size. -/
theorem batch_size_dependence_with_repeated_names :
    (df_year_rows 1 2000 (fun _ => 1)
      ⟨[0], [0, 1], [2000], fun _ _ lo => lo⟩
      [⟨"A", fun _ lo => lo == 0⟩, ⟨"A", fun _ lo => lo == 1⟩]).length = 2 ∧
    (df_year_rows 2 2000 (fun _ => 1)
      ⟨[0], [0, 1], [2000], fun _ _ lo => lo⟩
      [⟨"A", fun _ lo => lo == 0⟩, ⟨"A", fun _ lo => lo == 1⟩]).length = 1 ∧
    ¬ (df_year_rows 1 2000 (fun _ => 1)
      ⟨[0], [0, 1], [2000], fun _ _ lo => lo⟩
      [⟨"A", fun _ lo => lo == 0⟩, ⟨"A", fun _ lo => lo == 1⟩]).Perm
      (df_year_rows 2 2000 (fun _ => 1)
        ⟨[0], [0, 1], [2000], fun _ _ lo => lo⟩
        [⟨"A", fun _ lo => lo == 0⟩, ⟨"A", fun _ lo => lo == 1⟩]) :=
  ⟨by decide, by decide, fun hp => absurd hp.length_eq (by decide)⟩

/-- Strict lexicographic character order is transitive. -/
theorem lexLt_trans : ∀ as bs cs : List Char,
    lexLt as bs = true → lexLt bs cs = true → lexLt as cs = true := by
  intro as
  induction as with
  | nil =>
    intro bs cs h1 h2
    cases bs with
    | nil => cases h1
    | cons b bs2 =>
      cases cs with
      | nil => cases h2
      | cons c cs2 => rfl
  | cons a as2 ih =>
    intro bs cs h1 h2
    cases bs with
    | nil => cases h1
    | cons b bs2 =>
      cases cs with
      | nil => cases h2
      | cons c cs2 =>
        rw [lexLt] at h1 h2 ⊢
        by_cases hab : a.toNat < b.toNat
        · by_cases hbc : b.toNat < c.toNat
          · simp [show a.toNat < c.toNat by omega]
          · rw [if_neg hbc] at h2
            by_cases hcb : c.toNat < b.toNat
            · rw [if_pos hcb] at h2; cases h2
            · have : a.toNat < c.toNat := by omega
              simp [this]
        · rw [if_neg hab] at h1
          by_cases hba : b.toNat < a.toNat
          · rw [if_pos hba] at h1; cases h1
          · rw [if_neg hba] at h1
            by_cases hbc : b.toNat < c.toNat
            · have hac : a.toNat < c.toNat := by omega
              simp [hac]
            · rw [if_neg hbc] at h2
              by_cases hcb : c.toNat < b.toNat
              · rw [if_pos hcb] at h2; cases h2
              · rw [if_neg hcb] at h2
                have h3 : ¬ a.toNat < c.toNat := by omega
                have h4 : ¬ c.toNat < a.toNat := by omega
                rw [if_neg h3, if_neg h4]
                exact ih bs2 cs2 h1 h2

/-- Two character lists that are each not below the other are equal. -/
theorem lexLt_connex : ∀ as bs : List Char,
    lexLt as bs = false → lexLt bs as = false → as = bs := by
  intro as
  induction as with
  | nil =>
    intro bs h1 _
    cases bs with
    | nil => rfl
    | cons b bs2 => cases h1
  | cons a as2 ih =>
    intro bs h1 h2
    cases bs with
    | nil => cases h2
    | cons b bs2 =>
      rw [lexLt] at h1 h2
      by_cases hab : a.toNat < b.toNat
      · rw [if_pos hab] at h1; cases h1
      · by_cases hba : b.toNat < a.toNat
        · rw [if_pos hba] at h2; cases h2
        · rw [if_neg hab, if_neg hba] at h1
          rw [if_neg hba, if_neg hab] at h2
          have hn : a.toNat = b.toNat := by omega
          have hc : a = b := Char.eq_of_val_eq (UInt32.ext hn)
          rw [hc, ih bs2 h1 h2]

/-- Strings with equal character lists are equal. -/
theorem str_eq_of_data (a b : String) (h : a.data = b.data) : a = b := by
  cases a
  cases b
  exact congrArg String.mk (by simpa using h)

/-- Unfolded form of the (country, year) sort comparator. -/
theorem keyLe_iff (r s : Rec) :
    keyLe r s ↔ (lexLt r.country.data s.country.data = true
      ∨ (r.country = s.country ∧ r.year ≤ s.year)) := by
  rw [keyLe, keyLeB, strLtB]
  rw [Bool.or_eq_true, Bool.and_eq_true, beq_iff_eq, decide_eq_true_iff]

/-- The (country, year) sort comparator is total. -/
theorem keyLe_total : ∀ r s : Rec, keyLe r s ∨ keyLe s r := by
  intro r s
  by_cases h1 : lexLt r.country.data s.country.data = true
  · exact Or.inl ((keyLe_iff r s).mpr (Or.inl h1))
  · by_cases h2 : lexLt s.country.data r.country.data = true
    · exact Or.inr ((keyLe_iff s r).mpr (Or.inl h2))
    · have hceq : r.country = s.country :=
        str_eq_of_data _ _ (lexLt_connex r.country.data s.country.data
          (Bool.not_eq_true _ ▸ h1) (Bool.not_eq_true _ ▸ h2))
      rcases Int.le_total r.year s.year with hy | hy
      · exact Or.inl ((keyLe_iff r s).mpr (Or.inr ⟨hceq, hy⟩))
      · exact Or.inr ((keyLe_iff s r).mpr (Or.inr ⟨hceq.symm, hy⟩))

/-- The (country, year) sort comparator is transitive. -/
theorem keyLe_trans : ∀ r s t : Rec, keyLe r s → keyLe s t → keyLe r t := by
  intro r s t h1 h2
  rcases (keyLe_iff r s).mp h1 with ha | ⟨hc, hy⟩
  · rcases (keyLe_iff s t).mp h2 with hb | ⟨hc2, _⟩
    · exact (keyLe_iff r t).mpr (Or.inl (lexLt_trans _ _ _ ha hb))
    · exact (keyLe_iff r t).mpr (Or.inl (hc2 ▸ ha))
  · rcases (keyLe_iff s t).mp h2 with hb | ⟨hc2, hy2⟩
    · exact (keyLe_iff r t).mpr (Or.inl (hc ▸ hb))
    · exact (keyLe_iff r t).mpr (Or.inr ⟨hc.trans hc2, le_trans hy hy2⟩)

/-- Deduplication keeps a subsequence of the input rows. -/
theorem ddkfAux_sublist :
    ∀ (l : List Rec) (seen : List (String × Int)),
      List.Sublist (ddkfAux seen l) l := by
  intro l
  induction l with
  | nil => intro seen; exact List.Sublist.refl []
  | cons r rs ih =>
    intro seen
    simp only [ddkfAux]
    by_cases h : (seen.any fun t => decide (t = recKey r)) = true
    · rw [if_pos h]
      exact (ih seen).trans (List.sublist_cons_self r rs)
    · rw [if_neg h]
      exact (ih _).cons₂ r

/-- Deduplication yields pairwise-distinct keys, none of them previously
seen. -/
theorem ddkfAux_nodup :
    ∀ (l : List Rec) (seen : List (String × Int)),
      ((ddkfAux seen l).map recKey).Nodup ∧
        ∀ s ∈ ddkfAux seen l, recKey s ∉ seen := by
  intro l
  induction l with
  | nil => intro seen; exact ⟨List.nodup_nil, fun s hs => absurd hs (List.not_mem_nil s)⟩
  | cons r rs ih =>
    intro seen
    simp only [ddkfAux]
    by_cases h : (seen.any fun t => decide (t = recKey r)) = true
    · rw [if_pos h]
      exact ih seen
    · rw [if_neg h]
      have hrs := ih (recKey r :: seen)
      have hrseen : recKey r ∉ seen := by
        intro hin
        exact h (List.any_eq_true.mpr ⟨recKey r, hin, by simp⟩)
      constructor
      · rw [List.map_cons, List.nodup_cons]
        refine ⟨?_, hrs.1⟩
        intro hmem
        rcases List.mem_map.mp hmem with ⟨t, ht, hkey⟩
        exact (hrs.2 t ht) (hkey ▸ List.mem_cons_self _ _)
      · intro s hs
        rcases List.mem_cons.mp hs with rfl | hs2
        · exact hrseen
        · exact fun hin => (hrs.2 s hs2) (List.mem_cons_of_mem _ hin)

/-- Looking up a key not yet seen finds the same first record before and
after deduplication. -/
theorem ddkfAux_find? (k : String × Int) :
    ∀ (l : List Rec) (seen : List (String × Int)), k ∉ seen →
      (ddkfAux seen l).find? (fun s => decide (recKey s = k))
        = l.find? (fun s => decide (recKey s = k)) := by
  intro l
  induction l with
  | nil => intro seen _; rfl
  | cons r rs ih =>
    intro seen hk
    simp only [ddkfAux]
    by_cases h : (seen.any fun t => decide (t = recKey r)) = true
    · rw [if_pos h]
      have hrk : ¬ recKey r = k := by
        intro he
        rcases List.any_eq_true.mp h with ⟨t, ht, hdec⟩
        exact hk (he ▸ (of_decide_eq_true hdec) ▸ ht)
      rw [List.find?_cons_of_neg rs (by simp [hrk]), ih seen hk]
    · rw [if_neg h]
      by_cases hrk : recKey r = k
      · rw [List.find?_cons_of_pos _ (by simp [hrk]),
          List.find?_cons_of_pos _ (by simp [hrk])]
      · rw [List.find?_cons_of_neg _ (by simp [hrk]),
          List.find?_cons_of_neg _ (by simp [hrk])]
        refine ih (recKey r :: seen) ?_
        intro hin
        rcases List.mem_cons.mp hin with he | hin2
        · exact hrk he.symm
        · exact hk hin2

/-- Deduplication keeps a subsequence of the input rows
(fetch_climate.py line 248). -/
theorem drop_duplicates_sublist (l : List Rec) :
    List.Sublist (drop_duplicates_keep_first l) l :=
  ddkfAux_sublist l []

/-- After deduplication the (country, year) keys are pairwise distinct. -/
theorem drop_duplicates_keys_nodup (l : List Rec) :
    ((drop_duplicates_keep_first l).map recKey).Nodup :=
  (ddkfAux_nodup l []).1

/-- Looking up a key after deduplication finds the same first record. -/
theorem drop_duplicates_find? (k : String × Int) (l : List Rec) :
    (drop_duplicates_keep_first l).find? (fun s => decide (recKey s = k))
      = l.find? (fun s => decide (recKey s = k)) :=
  ddkfAux_find? k l [] (List.not_mem_nil k)

/-- C8: the merge of fetch_climate.py lines 247-248 deduplicates on the
(country, year) key, and when the direct result already holds a record for
a key, every fallback record for that key is discarded: the record kept in
the final output for that key is exactly the first direct record. -/
theorem merge_prefers_direct (direct fb : List Rec) (k : String × Int) (r : Rec)
    (h : direct.find? (fun s => decide (recKey s = k)) = some r) :
    ((final_year_records direct fb).map recKey).Nodup ∧
    r ∈ final_year_records direct fb ∧
    ∀ s ∈ final_year_records direct fb, recKey s = k → s = r := by
  have hfind : (final_year_records direct fb).find? (fun s => decide (recKey s = k))
      = some r := by
    rw [final_year_records, drop_duplicates_find?, List.find?_append, h]
    rfl
  have hmem : r ∈ final_year_records direct fb := List.mem_of_find?_eq_some hfind
  have hkey : recKey r = k := by
    have := List.find?_some hfind
    simpa using this
  refine ⟨drop_duplicates_keys_nodup _, hmem, ?_⟩
  intro s hs hsk
  exact List.inj_on_of_nodup_map (drop_duplicates_keys_nodup (direct ++ fb))
    hs hmem (by rw [hsk, hkey])

/-- C8 witness: with a direct record and a fallback record for the same
(France, 2000) key, the direct one is kept and is the unique record at
that key. -/
theorem merge_prefers_direct_witness :
    (((final_year_records [⟨"FR", 2000, 3⟩] [⟨"FR", 2000, 9⟩]).map recKey).Nodup ∧
    (⟨"FR", 2000, 3⟩ : Rec) ∈ final_year_records [⟨"FR", 2000, 3⟩] [⟨"FR", 2000, 9⟩] ∧
    ∀ s ∈ final_year_records [⟨"FR", 2000, 3⟩] [⟨"FR", 2000, 9⟩],
      recKey s = ("FR", 2000) → s = ⟨"FR", 2000, 3⟩) :=
  merge_prefers_direct [⟨"FR", 2000, 3⟩] [⟨"FR", 2000, 9⟩] ("FR", 2000)
    ⟨"FR", 2000, 3⟩ (by decide)

/-- C3: counterexample.  A reachable one-year run (one covered region
named B, one uncovered region named A resolved by fallback) hands the
parquet writer the rows in merge order B, A, which is not sorted by
(country, year): no sort is applied to the partition rows before the
write (fetch_climate.py lines 247-259). -/
theorem partition_rows_not_sorted :
    ¬ List.Sorted keyLe (year_partition_rows batch_size 2000 (fun _ => 1)
      ⟨[0], [0], [2000], fun _ _ _ => 5⟩
      [⟨"B", fun _ _ => true⟩, ⟨"A", fun _ _ => false⟩]
      (fun _ _ _ _ => 3) (fun n => if n == "A" then some (0, 3) else none)
      FALLBACK_MAX_KM) := by decide

/-- C3 (amended): the rows of the persisted year partitions are written in
deduplicated merge order (direct batch-grouped rows, then fallback rows)
with no (country, year) sort before the parquet write; the (country, year)
sort exists only in the run-level preview CSV, whose rows are sorted as
stated.  Determinism of re-runs is unaffected, every stage being a pure
function of its inputs. -/
theorem preview_rows_sorted (frames : List (List Rec)) :
    List.Sorted keyLe (preview_rows frames) := by
  haveI : IsTotal Rec keyLe := ⟨keyLe_total⟩
  haveI : IsTrans Rec keyLe := ⟨fun a b c => keyLe_trans a b c⟩
  exact List.Pairwise.sublist (drop_duplicates_sublist _)
    (List.sorted_insertionSort keyLe frames.flatten)

/-- Running-minimum invariant of `argminPair`: the result value is a lower
bound of the seed and all scanned values; either nothing improved the
seed, or the result indexes a scanned value that is strictly below the
seed and strictly below every value scanned before it. -/
theorem argminPair_spec : ∀ (xs : List ℚ) (k bi : Nat) (bv : ℚ),
    ((argminPair xs k (bi, bv)).2 ≤ bv ∧ ∀ x ∈ xs, (argminPair xs k (bi, bv)).2 ≤ x) ∧
    (argminPair xs k (bi, bv) = (bi, bv) ∨
      (k ≤ (argminPair xs k (bi, bv)).1 ∧
       (argminPair xs k (bi, bv)).1 < k + xs.length ∧
       xs.getD ((argminPair xs k (bi, bv)).1 - k) 0 = (argminPair xs k (bi, bv)).2 ∧
       (argminPair xs k (bi, bv)).2 < bv ∧
       ∀ j, j < (argminPair xs k (bi, bv)).1 - k →
         (argminPair xs k (bi, bv)).2 < xs.getD j 0)) := by
  intro xs
  induction xs with
  | nil =>
    intro k bi bv
    exact ⟨⟨le_refl _, fun x hx => absurd hx (List.not_mem_nil x)⟩, Or.inl rfl⟩
  | cons x xs ih =>
    intro k bi bv
    simp only [argminPair]
    by_cases hx : x < bv
    · rw [if_pos hx]
      rcases ih (k + 1) k x with ⟨⟨hle, hall⟩, hcase⟩
      constructor
      · refine ⟨le_trans hle (le_of_lt hx), ?_⟩
        intro z hz
        rcases List.mem_cons.mp hz with rfl | hz2
        · exact hle
        · exact hall z hz2
      · refine Or.inr ?_
        rcases hcase with heq | ⟨hk, hlt, hget, hv, hbefore⟩
        · rw [heq]
          refine ⟨le_refl k, by simp, ?_, hx, ?_⟩
          · simp
          · intro j hj
            simp at hj
        · refine ⟨le_trans (Nat.le_succ k) hk, by simpa [Nat.add_comm, Nat.add_left_comm] using hlt, ?_, lt_trans hv hx, ?_⟩
          · have hd : (argminPair xs (k + 1) (k, x)).1 - k
                = ((argminPair xs (k + 1) (k, x)).1 - (k + 1)) + 1 := by omega
            rw [hd, List.getD_cons_succ, hget]
          · intro j hj
            cases j with
            | zero => rw [List.getD_cons_zero]; exact hv
            | succ j2 =>
              rw [List.getD_cons_succ]
              exact hbefore j2 (by omega)
    · rw [if_neg hx]
      rcases ih (k + 1) bi bv with ⟨⟨hle, hall⟩, hcase⟩
      constructor
      · refine ⟨hle, ?_⟩
        intro z hz
        rcases List.mem_cons.mp hz with rfl | hz2
        · exact le_trans hle (le_of_not_lt hx)
        · exact hall z hz2
      · rcases hcase with heq | ⟨hk, hlt, hget, hv, hbefore⟩
        · exact Or.inl heq
        · refine Or.inr ⟨le_trans (Nat.le_succ k) hk,
            by simpa [Nat.add_comm, Nat.add_left_comm] using hlt, ?_, hv, ?_⟩
          · have hd : (argminPair xs (k + 1) (bi, bv)).1 - k
                = ((argminPair xs (k + 1) (bi, bv)).1 - (k + 1)) + 1 := by omega
            rw [hd, List.getD_cons_succ, hget]
          · intro j hj
            cases j with
            | zero =>
              rw [List.getD_cons_zero]
              exact lt_of_lt_of_le hv (le_of_not_lt hx)
            | succ j2 =>
              rw [List.getD_cons_succ]
              exact hbefore j2 (by omega)

/-- `argmin_idx` returns a valid index whose value is a minimum of the
list, and every strictly earlier index holds a strictly larger value (so
ties go to the first occurrence, as with `np.argmin`). -/
theorem argmin_spec (l : List ℚ) (h : l ≠ []) :
    argmin_idx l < l.length ∧
    (∀ j, j < l.length → l.getD (argmin_idx l) 0 ≤ l.getD j 0) ∧
    (∀ j, j < argmin_idx l → l.getD (argmin_idx l) 0 < l.getD j 0) := by
  cases l with
  | nil => exact absurd rfl h
  | cons x xs =>
    rcases argminPair_spec xs 1 0 x with ⟨⟨hle, hall⟩, hcase⟩
    have hget : ∀ j2 : Nat, j2 < xs.length → xs.getD j2 0 ∈ xs := by
      intro j2 hj2
      rw [List.getD_eq_getElem _ _ hj2]
      exact List.getElem_mem hj2
    rcases hcase with heq | ⟨hk, hlt, hgetv, hv, hbefore⟩
    · rw [argmin_idx, heq]
      rw [heq] at hle hall
      refine ⟨by simp, ?_, ?_⟩
      · intro j hj
        cases j with
        | zero => exact le_refl _
        | succ j2 =>
          rw [List.getD_cons_zero, List.getD_cons_succ]
          exact hall _ (hget j2 (by simpa using hj))
      · intro j hj
        simp at hj
    · rw [argmin_idx]
      have hidx1 : 1 ≤ (argminPair xs 1 (0, x)).1 := hk
      refine ⟨by simpa [Nat.add_comm] using hlt, ?_, ?_⟩
      · intro j hj
        have hmain : (x :: xs).getD (argminPair xs 1 (0, x)).1 0
            = (argminPair xs 1 (0, x)).2 := by
          have hd : (argminPair xs 1 (0, x)).1 = ((argminPair xs 1 (0, x)).1 - 1) + 1 := by
            omega
          rw [hd, List.getD_cons_succ, hgetv]
        rw [hmain]
        cases j with
        | zero => exact le_of_lt hv
        | succ j2 =>
          rw [List.getD_cons_succ]
          exact hall _ (hget j2 (by simpa using hj))
      · intro j hj
        have hmain : (x :: xs).getD (argminPair xs 1 (0, x)).1 0
            = (argminPair xs 1 (0, x)).2 := by
          have hd : (argminPair xs 1 (0, x)).1 = ((argminPair xs 1 (0, x)).1 - 1) + 1 := by
            omega
          rw [hd, List.getD_cons_succ, hgetv]
        rw [hmain]
        cases j with
        | zero => rw [List.getD_cons_zero]; exact hv
        | succ j2 =>
          rw [List.getD_cons_succ]
          exact hbefore j2 (by omega)

/-- C5: with a nonempty grid, the value the fallback thresholds against is
the true minimum distance over all cells, the nearest cell is accepted
exactly when that minimum is at or below the distance cap (so a country
whose nearest cell sits exactly at the cap is accepted), and beyond the
cap no record is produced and the audit entry carries status
`no_cell_within_{cap}km` with the achieved minimum distance
(geo_utils.py lines 82-95). -/
theorem fallback_threshold (d : ℚ → ℚ → ℚ → ℚ → ℚ) (g : Grid) (cap : ℚ)
    (name : String) (clat clon : ℚ)
    (h : fb_dists d g clat clon ≠ []) :
    (fb_dmin d g clat clon ∈ fb_dists d g clat clon ∧
      ∀ x ∈ fb_dists d g clat clon, fb_dmin d g clat clon ≤ x) ∧
    ((fallback_country d g cap name (some (clat, clon))).2.status = FbStatus.fallback_used
      ↔ fb_dmin d g clat clon ≤ cap) ∧
    (cap < fb_dmin d g clat clon →
      (fallback_country d g cap name (some (clat, clon))).1 = [] ∧
      (fallback_country d g cap name (some (clat, clon))).2
        = ⟨name, FbStatus.no_cell_within cap, some (fb_dmin d g clat clon), none, none⟩) := by
  rcases argmin_spec (fb_dists d g clat clon) h with ⟨hlen, hmin, _⟩
  have hmem : fb_dmin d g clat clon ∈ fb_dists d g clat clon := by
    rw [fb_dmin, List.getD_eq_getElem _ _ hlen]
    exact List.getElem_mem hlen
  have hminx : ∀ x ∈ fb_dists d g clat clon, fb_dmin d g clat clon ≤ x := by
    intro x hx
    rcases List.mem_iff_getElem.mp hx with ⟨j, hj, rfl⟩
    have hj2 := hmin j hj
    rw [List.getD_eq_getElem _ _ hj] at hj2
    exact hj2
  refine ⟨⟨hmem, hminx⟩, ?_, ?_⟩
  · by_cases hcap : cap < fb_dmin d g clat clon
    · simp only [fallback_country]
      rw [if_pos hcap]
      constructor
      · intro habs
        exact absurd habs (by simp)
      · intro hle
        exact absurd hcap (not_lt.mpr hle)
    · simp only [fallback_country]
      rw [if_neg hcap]
      constructor
      · intro _
        exact not_lt.mp hcap
      · intro _
        rfl
  · intro hcap
    simp only [fallback_country]
    rw [if_pos hcap]
    exact ⟨rfl, rfl⟩

/-- C5 witness: a one-cell grid whose distance is exactly the configured
25 km cap: the boundary case is accepted with status `fallback_used`. -/
theorem fallback_threshold_witness :
    (fb_dmin (fun _ _ _ _ => 25) ⟨[0], [0], [2000], fun _ _ _ => 7⟩ 0 0
        ∈ fb_dists (fun _ _ _ _ => 25) ⟨[0], [0], [2000], fun _ _ _ => 7⟩ 0 0 ∧
      ∀ x ∈ fb_dists (fun _ _ _ _ => 25) ⟨[0], [0], [2000], fun _ _ _ => 7⟩ 0 0,
        fb_dmin (fun _ _ _ _ => 25) ⟨[0], [0], [2000], fun _ _ _ => 7⟩ 0 0 ≤ x) ∧
    ((fallback_country (fun _ _ _ _ => 25) ⟨[0], [0], [2000], fun _ _ _ => 7⟩
        FALLBACK_MAX_KM "X" (some (0, 0))).2.status = FbStatus.fallback_used
      ↔ fb_dmin (fun _ _ _ _ => 25) ⟨[0], [0], [2000], fun _ _ _ => 7⟩ 0 0
          ≤ FALLBACK_MAX_KM) ∧
    (FALLBACK_MAX_KM < fb_dmin (fun _ _ _ _ => 25)
        ⟨[0], [0], [2000], fun _ _ _ => 7⟩ 0 0 →
      (fallback_country (fun _ _ _ _ => 25) ⟨[0], [0], [2000], fun _ _ _ => 7⟩
        FALLBACK_MAX_KM "X" (some (0, 0))).1 = [] ∧
      (fallback_country (fun _ _ _ _ => 25) ⟨[0], [0], [2000], fun _ _ _ => 7⟩
        FALLBACK_MAX_KM "X" (some (0, 0))).2
        = ⟨"X", FbStatus.no_cell_within FALLBACK_MAX_KM,
            some (fb_dmin (fun _ _ _ _ => 25) ⟨[0], [0], [2000], fun _ _ _ => 7⟩ 0 0),
            none, none⟩) :=
  fallback_threshold (fun _ _ _ _ => 25) ⟨[0], [0], [2000], fun _ _ _ => 7⟩
    FALLBACK_MAX_KM "X" 0 0 (by decide)

/-- The raveled meshgrid has one entry per (lat, lon) pair. -/
theorem flatMap_map_length (lats lons : List ℚ) :
    (lats.flatMap (fun la => lons.map (fun lo => (la, lo)))).length
      = lats.length * lons.length := by
  induction lats with
  | nil => simp
  | cons la lats ih =>
    simp [List.flatMap_cons, ih, Nat.succ_mul, Nat.add_comm]

/-- Decoding a row-major flat index recovers the meshgrid cell:
`flat[idx] = (lats[idx / nlon], lons[idx % nlon])`, exactly the decode of
geo_utils.py lines 90-95. -/
theorem grid_flat_getD : ∀ (lats lons : List ℚ) (idx : Nat),
    idx < lats.length * lons.length →
    (lats.flatMap (fun la => lons.map (fun lo => (la, lo)))).getD idx (0, 0)
      = (lats.getD (idx / lons.length) 0, lons.getD (idx % lons.length) 0) := by
  intro lats
  induction lats with
  | nil =>
    intro lons idx h
    simp at h
  | cons la lats ih =>
    intro lons idx h
    rw [List.flatMap_cons]
    have hn : 0 < lons.length := by
      rcases Nat.eq_zero_or_pos lons.length with h0 | h0
      · rw [h0, Nat.mul_zero] at h
        exact absurd h (Nat.not_lt_zero idx)
      · exact h0
    by_cases hidx : idx < lons.length
    · rw [List.getD_append _ _ _ _ (by simpa using hidx)]
      rw [List.getD_eq_getElem _ _ (by simpa using hidx), List.getElem_map]
      rw [Nat.div_eq_of_lt hidx, Nat.mod_eq_of_lt hidx, List.getD_cons_zero]
      rw [List.getD_eq_getElem _ _ hidx]
    · have hge : lons.length ≤ idx := Nat.le_of_not_lt hidx
      rw [List.getD_append_right _ _ _ _ (by simpa using hge)]
      obtain ⟨m, rfl⟩ : ∃ m, idx = lons.length + m := ⟨idx - lons.length, by omega⟩
      have hm : m < lats.length * lons.length := by
        rw [List.length_cons, Nat.succ_mul] at h
        omega
      rw [List.length_map]
      rw [show lons.length + m - lons.length = m by omega]
      rw [ih lons m hm]
      rw [Nat.add_comm lons.length m, Nat.add_div_right _ hn, Nat.add_mod_right,
        List.getD_cons_succ]

/-- C6: the nearest-cell choice of the fallback is the first minimizer in
row-major (latitude-major, then longitude) scan order: the chosen index is
in range, it decodes through `idx / nlon` and `idx % nlon` to the cell at
that flat position, its distance is a minimum over all cells, and every
cell strictly earlier in scan order is strictly farther (geo_utils.py
lines 41-46, 64-95); the choice is a pure function of the anchor point and
the grid coordinate arrays by construction. -/
theorem fallback_nearest_cell_row_major (d : ℚ → ℚ → ℚ → ℚ → ℚ) (g : Grid)
    (clat clon : ℚ) (h : fb_dists d g clat clon ≠ []) :
    argmin_idx (fb_dists d g clat clon) < (grid_flat g).length ∧
    (grid_flat g).getD (argmin_idx (fb_dists d g clat clon)) (0, 0)
      = (g.lats.getD (argmin_idx (fb_dists d g clat clon) / g.lons.length) 0,
          g.lons.getD (argmin_idx (fb_dists d g clat clon) % g.lons.length) 0) ∧
    (∀ j, j < (fb_dists d g clat clon).length →
      fb_dmin d g clat clon ≤ (fb_dists d g clat clon).getD j 0) ∧
    (∀ j, j < argmin_idx (fb_dists d g clat clon) →
      fb_dmin d g clat clon < (fb_dists d g clat clon).getD j 0) := by
  have hlenmap : (fb_dists d g clat clon).length = (grid_flat g).length :=
    List.length_map _ _
  have hflat : (grid_flat g).length = g.lats.length * g.lons.length := by
    rw [grid_flat]
    exact flatMap_map_length g.lats g.lons
  rcases argmin_spec (fb_dists d g clat clon) h with ⟨hlen, hmin, hfirst⟩
  have hidx : argmin_idx (fb_dists d g clat clon) < (grid_flat g).length := by
    rw [← hlenmap]
    exact hlen
  refine ⟨hidx, ?_, ?_, ?_⟩
  · rw [grid_flat]
    exact grid_flat_getD g.lats g.lons _ (by rw [← hflat]; exact hidx)
  · intro j hj
    rw [fb_dmin]
    exact hmin j hj
  · intro j hj
    rw [fb_dmin]
    exact hfirst j hj

/-- C6 witness: a 2 by 2 grid with an exact distance tie between the cells
at flat positions 1 and 2; the fallback picks index 1, the first in
row-major order, which decodes to latitude row 0, longitude column 1. -/
theorem fallback_nearest_cell_row_major_witness :
    argmin_idx (fb_dists (fun _ _ la lo => if la == 0 && lo == 1 then 5
        else if la == 1 && lo == 0 then 5 else 9)
        ⟨[0, 1], [0, 1], [2000], fun _ _ _ => 0⟩ 0 0)
      < (grid_flat ⟨[0, 1], [0, 1], [2000], fun _ _ _ => 0⟩).length ∧
    (grid_flat ⟨[0, 1], [0, 1], [2000], fun _ _ _ => 0⟩).getD
        (argmin_idx (fb_dists (fun _ _ la lo => if la == 0 && lo == 1 then 5
          else if la == 1 && lo == 0 then 5 else 9)
          ⟨[0, 1], [0, 1], [2000], fun _ _ _ => 0⟩ 0 0)) (0, 0)
      = ((⟨[0, 1], [0, 1], [2000], fun _ _ _ => 0⟩ : Grid).lats.getD
          (argmin_idx (fb_dists (fun _ _ la lo => if la == 0 && lo == 1 then 5
            else if la == 1 && lo == 0 then 5 else 9)
            ⟨[0, 1], [0, 1], [2000], fun _ _ _ => 0⟩ 0 0) / 2) 0,
        (⟨[0, 1], [0, 1], [2000], fun _ _ _ => 0⟩ : Grid).lons.getD
          (argmin_idx (fb_dists (fun _ _ la lo => if la == 0 && lo == 1 then 5
            else if la == 1 && lo == 0 then 5 else 9)
            ⟨[0, 1], [0, 1], [2000], fun _ _ _ => 0⟩ 0 0) % 2) 0) ∧
    argmin_idx (fb_dists (fun _ _ la lo => if la == 0 && lo == 1 then 5
        else if la == 1 && lo == 0 then 5 else 9)
        ⟨[0, 1], [0, 1], [2000], fun _ _ _ => 0⟩ 0 0) = 1 := by
  have hmain := fallback_nearest_cell_row_major
    (fun _ _ la lo => if la == 0 && lo == 1 then 5
      else if la == 1 && lo == 0 then 5 else 9)
    ⟨[0, 1], [0, 1], [2000], fun _ _ _ => 0⟩ 0 0 (by decide)
  exact ⟨hmain.1, hmain.2.1, by decide⟩

/-- C4: counterexample.  A single non-null, non-empty geometry that becomes
empty during the buffer(0)/make_valid repair passes the only emptiness
check (geo_utils.py lines 159-160), is dropped at line 194, and the
sanitizer silently returns an empty collection instead of raising: the
claimed error-or-nonempty alternative is false. -/
theorem sanitize_returns_empty_silently :
    sanitize_countries ["name"] [⟨false, false, true, false⟩] none 15000
      = Except.ok ([], "name") ∧
    ¬ ((∃ e, sanitize_countries ["name"] [⟨false, false, true, false⟩] none 15000
          = Except.error e) ∨
      (∃ out col, sanitize_countries ["name"] [⟨false, false, true, false⟩] none 15000
          = Except.ok (out, col) ∧ out ≠ [])) := by
  have h : sanitize_countries ["name"] [⟨false, false, true, false⟩] none 15000
      = Except.ok ([], "name") := rfl
  refine ⟨h, ?_⟩
  rintro (⟨e, he⟩ | ⟨out, col, hok, hne⟩)
  · rw [h] at he
    cases he
  · rw [h] at hok
    injection hok with hpair
    exact hne (congrArg Prod.fst hpair).symm
  
/-- C4 (amended): the sanitizer raises exactly when the initial null/empty
drop leaves nothing or the country-name column cannot be resolved
(geo_utils.py lines 159-160, 163-176); a working set that becomes empty
after the repair drop (line 194) or the final post-reprojection drop
(lines 205-206) is returned silently, with no error (the caller first
hits an error later, in `build_regions`). -/
theorem sanitize_error_characterization (columns : List String) (rows : List GeoRow)
    (country_col : Option String) (b : ℚ) :
    (∃ e, sanitize_countries columns rows country_col b = Except.error e)
      ↔ (initial_keep rows = []
          ∨ ∃ e, resolve_country_col columns country_col = Except.error e) := by
  rw [sanitize_countries]
  by_cases h1 : (initial_keep rows).isEmpty
  · rw [if_pos h1]
    constructor
    · intro _
      exact Or.inl (List.isEmpty_iff.mp h1)
    · intro _
      exact ⟨_, rfl⟩
  · rw [if_neg h1]
    constructor
    · rintro ⟨e, he⟩
      cases hres : resolve_country_col columns country_col with
      | error e2 => exact Or.inr ⟨e2, rfl⟩
      | ok col =>
        rw [hres] at he
        cases he
    · rintro (hinit | ⟨e, hres⟩)
      · exact absurd (by rw [hinit]; rfl) h1
      · rw [hres]
        exact ⟨e, rfl⟩

/-- C9: on every state the file system passes through during a run started
with no leftover temporary file, every published partition path holds a
fully written file (a concurrent reader never observes a half-written
partition, since `os.replace` installs it in one atomic transition), and
at most one temporary file exists (so an interrupted run leaves at most
one incomplete temporary file). -/
theorem atomic_write_invariants (inputs : List (Int × List Rec)) (s0 : FS)
    (h0tmp : s0.tmp = []) (h0fin : finalsOk s0) :
    ∀ st ∈ run_states s0 inputs, finalsOk st ∧ st.tmp.length ≤ 1 := by
  induction inputs generalizing s0 with
  | nil =>
    intro st hst
    simp only [run_states] at hst
    rcases List.mem_singleton.mp hst with rfl
    exact ⟨h0fin, by simp [h0tmp]⟩
  | cons yr rest ih =>
    obtain ⟨y, recs⟩ := yr
    intro st hst
    simp only [run_states] at hst
    by_cases hrecs : recs.isEmpty
    · rw [if_pos hrecs] at hst
      rcases List.mem_cons.mp hst with rfl | hst2
      · exact ⟨h0fin, by simp [h0tmp]⟩
      · exact ih s0 h0tmp h0fin st hst2
    · rw [if_neg hrecs] at hst
      have hsetlen : ∀ c : PartFile, (setFile s0.tmp y c).length ≤ 1 := by
        intro c
        simp [setFile, h0tmp]
      have hset2 : ∀ c c2 : PartFile,
          (setFile (setFile s0.tmp y c) y c2).length ≤ 1 := by
        intro c c2
        simp [setFile, h0tmp]
      have hfin2 : finalsOk ⟨delFile (setFile (setFile s0.tmp y PartFile.incomplete) y
          (PartFile.complete recs)) y, setFile s0.final y (PartFile.complete recs)⟩ := by
        intro p hp
        rcases List.mem_cons.mp hp with rfl | hp2
        · rfl
        · exact h0fin p (List.mem_of_mem_filter hp2)
      have htmp2 : (delFile (setFile (setFile s0.tmp y PartFile.incomplete) y
          (PartFile.complete recs)) y) = [] := by
        simp [setFile, delFile, h0tmp]
      rcases List.mem_cons.mp hst with rfl | hst2
      · exact ⟨h0fin, by simp [h0tmp]⟩
      rcases List.mem_cons.mp hst2 with rfl | hst3
      · exact ⟨h0fin, hsetlen _⟩
      rcases List.mem_cons.mp hst3 with rfl | hst4
      · exact ⟨h0fin, hset2 _ _⟩
      · exact ih _ htmp2 hfin2 st hst4

/-- C9 witness: the invariants applied to a concrete two-year run and read
off at the state in the middle of the first serialization (tmp file
present and incomplete, nothing published yet). -/
theorem atomic_write_invariants_witness :
    finalsOk ⟨[(2000, PartFile.incomplete)], []⟩ ∧
    (⟨[(2000, PartFile.incomplete)], []⟩ : FS).tmp.length ≤ 1 :=
  atomic_write_invariants [(2000, [⟨"A", 2000, 1⟩]), (2001, [⟨"B", 2001, 2⟩])]
    ⟨[], []⟩ rfl (by intro p hp; cases hp)
    ⟨[(2000, PartFile.incomplete)], []⟩ (by decide)

/-- `run_states` always returns at least one state. -/
theorem run_states_ne_nil (s : FS) :
    ∀ inputs : List (Int × List Rec), run_states s inputs ≠ [] := by
  intro inputs
  cases inputs with
  | nil => simp [run_states]
  | cons yr rest =>
    obtain ⟨y, recs⟩ := yr
    simp only [run_states]
    by_cases hrecs : recs.isEmpty
    · rw [if_pos hrecs]
      simp
    · rw [if_neg hrecs]
      simp

/-- Dropping the head of a nonempty-tailed list keeps the last element. -/
theorem getLast?_cons_ne {α : Type _} (a : α) (l : List α) (h : l ≠ []) :
    (a :: l).getLast? = l.getLast? := by
  cases l with
  | nil => exact absurd rfl h
  | cons b t => rfl

/-- The last state the year-loop trace reaches is `final_state`. -/
theorem run_states_getLast? (inputs : List (Int × List Rec)) :
    ∀ s : FS, (run_states s inputs).getLast? = some (final_state s inputs) := by
  induction inputs with
  | nil => intro s; rfl
  | cons yr rest ih =>
    obtain ⟨y, recs⟩ := yr
    intro s
    simp only [run_states, final_state]
    by_cases hrecs : recs.isEmpty
    · rw [if_pos hrecs, if_pos hrecs]
      rw [getLast?_cons_ne _ _ (run_states_ne_nil s rest), ih s]
    · rw [if_neg hrecs, if_neg hrecs]
      rw [getLast?_cons_ne _ _ (by simp [run_states_ne_nil]),
        getLast?_cons_ne _ _ (by simp [run_states_ne_nil]),
        getLast?_cons_ne _ _ (run_states_ne_nil _ rest), ih]

/-- C10: a year whose merged record set is empty writes no partition at
all: the loop bookkeeping (written years and the partition counter) and
the final file system are exactly those of the run without that year, and
subsequent years are processed unchanged (fetch_climate.py lines 250-263);
the last conjunct ties the final file system to the full write trace. -/
theorem empty_year_partition_skipped :
    (∀ (acc : List Int × Nat) (pre post : List (Int × List Rec)) (y : Int),
      year_loop acc (pre ++ (y, ([] : List Rec)) :: post) = year_loop acc (pre ++ post)) ∧
    (∀ (s : FS) (pre post : List (Int × List Rec)) (y : Int),
      final_state s (pre ++ (y, ([] : List Rec)) :: post) = final_state s (pre ++ post)) ∧
    (∀ (s : FS) (inputs : List (Int × List Rec)),
      (run_states s inputs).getLast? = some (final_state s inputs)) := by
  refine ⟨?_, ?_, fun s inputs => run_states_getLast? inputs s⟩
  · intro acc pre
    induction pre generalizing acc with
    | nil =>
      intro post y
      simp [year_loop]
    | cons p pre ih =>
      intro post y
      obtain ⟨py, precs⟩ := p
      simp only [List.cons_append, year_loop]
      by_cases h : precs.isEmpty
      · rw [if_pos h, if_pos h]
        exact ih acc post y
      · rw [if_neg h, if_neg h]
        exact ih _ post y
  · intro s pre
    induction pre generalizing s with
    | nil =>
      intro post y
      simp [final_state]
    | cons p pre ih =>
      intro post y
      obtain ⟨py, precs⟩ := p
      simp only [List.cons_append, final_state]
      by_cases h : precs.isEmpty
      · rw [if_pos h, if_pos h]
        exact ih s post y
      · rw [if_neg h, if_neg h]
        exact ih _ post y

end ClimatePipeline
